import Mathlib

/-!
Verification development for the `log_precision` notebook.

The notebook runs three near-identical probe loops.  Each loop starts at
`power = 0`, computes `x = X ** power` with `X = 10`, applies a logarithm
backend to `x`, and decrements `power` by one until the backend fails:

* the `math` loop wraps `math.log` in a bare `try/except` and stops on any
  exception (`math.log` raises `ValueError` on non-positive input);
* the `numpy` loop does the same with `np.log`, after
  `warnings.filterwarnings("error")` has turned numpy's divide-by-zero
  `RuntimeWarning` into an exception;
* the `decimal` loop calls `Decimal.ln`, which never raises on this domain,
  and instead stops when the result equals `Decimal("-Infinity")`.

Numbers are modelled by exact rationals.  Python's `10 ** power` for
negative `power` is C `pow(10.0, power)`, modelled as the correctly rounded
IEEE-754 binary64 value of the exact rational `10 ^ power` (round to
nearest, ties to even, 53-bit significand, subnormals down to `2 ^ (-1074)`,
underflow to zero).  `Decimal(10) ** power` is modelled under the `decimal`
module's default context (28 significant digits, `Emin = -999999`, so the
least positive representable magnitude is `10 ^ (-1000026)`); below that the
result underflows, rounding half-even to a multiple of `10 ^ Etiny`, hence
to exact zero.  Overflow is not modelled: every probe input has `power ≤ 0`,
so all values lie in `(0, 1]`.
-/

/-- Exceptions that a backend call can signal in this development:
`math.log` raises `ValueError` on non-positive input, and the escalated
numpy divide-by-zero warning surfaces as a `RuntimeWarning`-based error. -/
inductive PyErr
  | valueError
  | runtimeWarning

/-- Outcome of one backend logarithm call: either an exception is raised, or
a value is returned; `value b` records in `b` whether the returned value is
the negative-infinity sentinel (`Decimal("-Infinity")` for the decimal
backend, `-inf` for numpy when warnings are not escalated). -/
inductive PyResult
  | raised (err : PyErr)
  | value (isNegInf : Bool)

/-- Stopping test of the two floating-point loops: a bare `except` catches
every exception, and a returned value never stops the loop. -/
def mathStops : PyResult → Bool
  | .raised _ => true
  | .value _ => false

/-- Stopping test of the decimal loop: the comparison
`y == Decimal("-Infinity")`; an exception would not be caught there (none
occurs on this domain). -/
def decStops : PyResult → Bool
  | .raised _ => false
  | .value b => b

/-- Stopping test of the generic probe as the spec describes it: the call
raises a failure signal, or it returns the negative-infinity sentinel. -/
def specStops (r : PyResult) : Bool := mathStops r || decStops r

/-- Generic probe loop shared by the three notebook cells.  `stop` is the
loop's stopping test, `powf power` models `x = X ** power` in the backend's
numeric representation, `logf` models the backend logarithm call.  The loop
starts at a given exponent (`0` in the notebook), returns the list of
exponents at which the logarithm was evaluated together with the reported
boundary exponent, and is fuelled because the source `while no_error` loop
has no a-priori bound. -/
def probeRun (stop : PyResult → Bool) (powf : ℤ → ℚ) (logf : ℚ → PyResult) :
    ℕ → ℤ → List ℤ × Option ℤ
  | 0, _ => ([], none)
  | fuel + 1, power =>
    if stop (logf (powf power)) then ([power], some power)
    else
      (power :: (probeRun stop powf logf fuel (power - 1)).1,
        (probeRun stop powf logf fuel (power - 1)).2)

/-- Round a rational to the nearest integer, ties to even (the IEEE-754
default rounding used by both binary64 and the decimal module). -/
def roundNE (q : ℚ) : ℤ :=
  if q - ⌊q⌋ < 1 / 2 then ⌊q⌋
  else if (1 : ℚ) / 2 < q - ⌊q⌋ then ⌊q⌋ + 1
  else if ⌊q⌋ % 2 = 0 then ⌊q⌋ else ⌊q⌋ + 1

/-- Floor of the base-2 logarithm of a positive rational, computed from its
numerator and denominator. -/
def qlog2 (q : ℚ) : ℤ :=
  if q.den ≤ q.num.toNat then (Nat.log 2 (q.num.toNat / q.den) : ℤ)
  else
    if q.den ≤ q.num.toNat * 2 ^ Nat.log 2 (q.den / q.num.toNat) then
      -(Nat.log 2 (q.den / q.num.toNat) : ℤ)
    else
      -(Nat.log 2 (q.den / q.num.toNat) : ℤ) - 1

/-- Correctly rounded IEEE-754 binary64 value of a positive rational: the
significand is rounded to 53 bits (ties to even), with the exponent floored
at `-1074` (subnormal range); a value at or below half the least subnormal
rounds to zero.  Overflow to infinity is not modelled (unused: all inputs in
this development lie in `(0, 1]`). -/
def roundDoublePos (q : ℚ) : ℚ :=
  (roundNE (q / 2 ^ max (qlog2 q - 52) (-1074)) : ℚ) * 2 ^ max (qlog2 q - 52) (-1074)

/-- Correctly rounded binary64 value of a rational. -/
def roundDouble (q : ℚ) : ℚ :=
  if q = 0 then 0
  else if 0 < q then roundDoublePos q
  else -roundDoublePos (-q)

/-- Python's `X ** power` for integer `X` (used with `X = 10`): exact
integer arithmetic for `power ≥ 0`, and for `power < 0` the C
`pow(float(X), power)`, modelled as the correctly rounded binary64 value of
the exact rational power. -/
def pyPow (X : ℚ) (p : ℤ) : ℚ :=
  if 0 ≤ p then X ^ p else roundDouble (X ^ p)

/-- Working precision of the `decimal` module's default context. -/
def decPrec : ℕ := 28

/-- Minimum adjusted exponent of the `decimal` module's default context. -/
def decEmin : ℤ := -999999

/-- Exponent of the least positive magnitude representable under the
default decimal context: `Etiny = Emin - prec + 1 = -1000026`. -/
def decEtiny : ℤ := decEmin - decPrec + 1

/-- Value of `Decimal(10) ** p` under the default decimal context.  For
`Etiny ≤ p` the power `1E<p>` is exact (one significant digit).  Below
`Etiny` the exact value underflows and is rounded half-even to a multiple
of `10 ^ Etiny`, which yields exact zero.  (Overflow above `Emax` is not
modelled; the probe only uses `p ≤ 0`.) -/
def decimalPow (p : ℤ) : ℚ :=
  if decEtiny ≤ p then (10 : ℚ) ^ p
  else (roundNE ((10 : ℚ) ^ p / (10 : ℚ) ^ decEtiny) : ℚ) * (10 : ℚ) ^ decEtiny

/-- Module-level `warnings.filterwarnings("error")` of the notebook: numeric
runtime warnings are escalated into errors, unconditionally. -/
def warningsAsErrors : Bool := true

/-- Model of `math.log`: raises `ValueError` on non-positive input, returns
a finite value otherwise (the logarithm of any positive binary64 value is
finite; the returned magnitude is unused by the probe). -/
def math.log (x : ℚ) : PyResult :=
  if x ≤ 0 then .raised .valueError else .value false

/-- Model of `np.log` as observed through the warning filter: on
non-positive input numpy emits a runtime warning (divide-by-zero at zero,
invalid-value below zero), which the filter `wAsErr` either escalates into
an error or lets pass, in which case the call returns `-inf` at zero (a
non-finite value, `nan` below zero); on positive input it returns a finite
value. -/
def np.log (wAsErr : Bool) (x : ℚ) : PyResult :=
  if x ≤ 0 then
    if wAsErr then .raised .runtimeWarning else .value (decide (x = 0))
  else .value false

/-- Model of `Decimal.ln`: never raises on this domain; returns the
`Decimal("-Infinity")` sentinel exactly at zero and a finite value on
positive input. -/
def Decimal.ln (x : ℚ) : PyResult :=
  if x = 0 then .value true else .value false

/-- Decimal probe loop with the sentinel equality check removed — the
counterfactual the spec describes: nothing ever stops such a loop. -/
def decStopsRemoved : PyResult → Bool := fun _ => false

/-- Probe loop of the `math` cell: start at exponent `0`, powers of `10` in
binary64, `math.log`, bare-except stopping. -/
def mathProbe (fuel : ℕ) : List ℤ × Option ℤ :=
  probeRun mathStops (pyPow 10) math.log fuel 0

/-- Probe loop of the `numpy` cell: identical to the `math` cell except that
the logarithm is `np.log` observed through the warning filter. -/
def npProbe (wAsErr : Bool) (fuel : ℕ) : List ℤ × Option ℤ :=
  probeRun mathStops (pyPow 10) (np.log wAsErr) fuel 0

/-- Probe loop of the `decimal` cell: powers of `Decimal(10)` under the
default context, `Decimal.ln`, stopping on the negative-infinity
sentinel. -/
def decProbe (fuel : ℕ) : List ℤ × Option ℤ :=
  probeRun decStops decimalPow Decimal.ln fuel 0

theorem mathFails_iff (x : ℚ) : mathStops (math.log x) = true ↔ x ≤ 0 := by
  unfold math.log
  split_ifs with h <;> simp [mathStops, h]

theorem npFails_iff (w : Bool) (x : ℚ) :
    mathStops (np.log w x) = true ↔ x ≤ 0 ∧ w = true := by
  unfold np.log
  split_ifs <;> simp_all [mathStops]

theorem decFails_iff (x : ℚ) : decStops (Decimal.ln x) = true ↔ x = 0 := by
  unfold Decimal.ln
  split_ifs with h <;> simp [decStops, h]

theorem probeRun_zero (stop : PyResult → Bool) (powf : ℤ → ℚ) (logf : ℚ → PyResult)
    (start : ℤ) : probeRun stop powf logf 0 start = ([], none) := rfl

theorem probeRun_succ (stop : PyResult → Bool) (powf : ℤ → ℚ) (logf : ℚ → PyResult)
    (fuel : ℕ) (power : ℤ) :
    probeRun stop powf logf (fuel + 1) power =
      if stop (logf (powf power)) then ([power], some power)
      else
        (power :: (probeRun stop powf logf fuel (power - 1)).1,
          (probeRun stop powf logf fuel (power - 1)).2) := rfl

theorem probeRun_sound (stop : PyResult → Bool) (powf : ℤ → ℚ) (logf : ℚ → PyResult)
    (fuel : ℕ) :
    ∀ (start b : ℤ) (t : List ℤ), probeRun stop powf logf fuel start = (t, some b) →
      stop (logf (powf b)) = true ∧ b ≤ start ∧ (start - b).toNat < fuel ∧
        ∀ p, b < p → p ≤ start → stop (logf (powf p)) = false := by
  induction fuel with
  | zero =>
    intro start b t h
    rw [probeRun_zero] at h
    simp at h
  | succ n ih =>
    intro start b t h
    rw [probeRun_succ] at h
    by_cases hs : stop (logf (powf start)) = true
    · rw [if_pos hs] at h
      obtain ⟨ht, hb⟩ := Prod.mk.injEq _ _ _ _ ▸ h
      obtain rfl : start = b := Option.some.inj hb
      refine ⟨hs, le_refl _, by omega, ?_⟩
      intro p h1 h2
      omega
    · rw [if_neg hs] at h
      obtain ⟨ht, hb⟩ := Prod.mk.injEq _ _ _ _ ▸ h
      have hrest : probeRun stop powf logf n (start - 1) =
          ((probeRun stop powf logf n (start - 1)).1, some b) := by
        rw [← hb]
      obtain ⟨hstop, hle, hfuel, hint⟩ := ih (start - 1) b _ hrest
      refine ⟨hstop, by omega, by omega, ?_⟩
      intro p h1 h2
      by_cases hp : p ≤ start - 1
      · exact hint p h1 hp
      · have : p = start := by omega
        subst this
        exact Bool.not_eq_true _ ▸ hs

theorem probeRun_complete (stop : PyResult → Bool) (powf : ℤ → ℚ) (logf : ℚ → PyResult)
    (b : ℤ) (hb : stop (logf (powf b)) = true) (fuel : ℕ) :
    ∀ start : ℤ, b ≤ start → (∀ p, b < p → p ≤ start → stop (logf (powf p)) = false) →
      (start - b).toNat < fuel →
      (probeRun stop powf logf fuel start).2 = some b := by
  induction fuel with
  | zero =>
    intro start _ _ hfuel
    omega
  | succ n ih =>
    intro start hle hint hfuel
    rw [probeRun_succ]
    by_cases hbs : b = start
    · subst hbs
      rw [if_pos hb]
    · have hstart : stop (logf (powf start)) = false := hint start (by omega) (le_refl _)
      rw [if_neg (by simp [hstart])]
      exact ih (start - 1) (by omega) (fun p h1 h2 => hint p h1 (by omega)) (by omega)

theorem probeRun_mono (stop : PyResult → Bool) (powf : ℤ → ℚ) (logf : ℚ → PyResult)
    (fuel fuel' : ℕ) (start b : ℤ) (h : (probeRun stop powf logf fuel start).2 = some b)
    (hf : fuel ≤ fuel') : (probeRun stop powf logf fuel' start).2 = some b := by
  obtain ⟨hstop, hle, hfuel, hint⟩ :=
    probeRun_sound stop powf logf fuel start b _ (Prod.mk.eta.symm.trans (by rw [h]))
  exact probeRun_complete stop powf logf b hstop fuel' start hle hint (by omega)

theorem probeRun_det (stop : PyResult → Bool) (powf : ℤ → ℚ) (logf : ℚ → PyResult)
    (start : ℤ) (fuel₁ fuel₂ : ℕ) (b₁ b₂ : ℤ)
    (h₁ : (probeRun stop powf logf fuel₁ start).2 = some b₁)
    (h₂ : (probeRun stop powf logf fuel₂ start).2 = some b₂) : b₁ = b₂ := by
  obtain ⟨hstop₁, hle₁, _, hint₁⟩ :=
    probeRun_sound stop powf logf fuel₁ start b₁ _ (Prod.mk.eta.symm.trans (by rw [h₁]))
  obtain ⟨hstop₂, hle₂, _, hint₂⟩ :=
    probeRun_sound stop powf logf fuel₂ start b₂ _ (Prod.mk.eta.symm.trans (by rw [h₂]))
  rcases lt_trichotomy b₁ b₂ with h | h | h
  · have := hint₁ b₂ h hle₂
    rw [hstop₂] at this
    exact absurd this (by simp)
  · exact h
  · have := hint₂ b₁ h hle₁
    rw [hstop₁] at this
    exact absurd this (by simp)

theorem probeRun_none_of_no_stop (stop : PyResult → Bool) (powf : ℤ → ℚ)
    (logf : ℚ → PyResult) (hstop : ∀ p : ℤ, stop (logf (powf p)) = false) (fuel : ℕ) :
    ∀ start : ℤ, (probeRun stop powf logf fuel start).2 = none := by
  induction fuel with
  | zero => intro start; rw [probeRun_zero]
  | succ n ih =>
    intro start
    rw [probeRun_succ, if_neg (by simp [hstop start])]
    exact ih (start - 1)

theorem probeRun_trace_mem (stop : PyResult → Bool) (powf : ℤ → ℚ) (logf : ℚ → PyResult)
    (fuel : ℕ) : ∀ (start p : ℤ), p ∈ (probeRun stop powf logf fuel start).1 →
      start - fuel < p ∧ p ≤ start := by
  induction fuel with
  | zero =>
    intro start p hp
    rw [probeRun_zero] at hp
    simp at hp
  | succ n ih =>
    intro start p hp
    rw [probeRun_succ] at hp
    by_cases hs : stop (logf (powf start)) = true
    · rw [if_pos hs] at hp
      simp only [List.mem_singleton] at hp
      omega
    · rw [if_neg hs] at hp
      simp only [List.mem_cons] at hp
      rcases hp with rfl | hp
      · omega
      · have := ih (start - 1) p hp
        omega

theorem probeRun_trace_head (stop : PyResult → Bool) (powf : ℤ → ℚ) (logf : ℚ → PyResult)
    (fuel : ℕ) (start : ℤ) :
    (probeRun stop powf logf (fuel + 1) start).1.head? = some start := by
  rw [probeRun_succ]
  by_cases hs : stop (logf (powf start)) = true
  · rw [if_pos hs]
    rfl
  · rw [if_neg hs]
    rfl

theorem probeRun_trace_chain (stop : PyResult → Bool) (powf : ℤ → ℚ) (logf : ℚ → PyResult)
    (fuel : ℕ) : ∀ start : ℤ,
      List.Chain' (fun a b => b = a - 1) (probeRun stop powf logf fuel start).1 := by
  induction fuel with
  | zero =>
    intro start
    rw [probeRun_zero]
    exact List.chain'_nil
  | succ n ih =>
    intro start
    rw [probeRun_succ]
    by_cases hs : stop (logf (powf start)) = true
    · rw [if_pos hs]
      exact List.chain'_singleton _
    · rw [if_neg hs]
      refine List.chain'_cons'.mpr ⟨?_, ih (start - 1)⟩
      intro y hy
      cases n with
      | zero =>
        rw [probeRun_zero] at hy
        simp at hy
      | succ m =>
        rw [probeRun_trace_head] at hy
        simp only [Option.mem_def, Option.some.injEq] at hy
        omega

theorem probeRun_trace_nodup (stop : PyResult → Bool) (powf : ℤ → ℚ) (logf : ℚ → PyResult)
    (fuel : ℕ) : ∀ start : ℤ, (probeRun stop powf logf fuel start).1.Nodup := by
  induction fuel with
  | zero =>
    intro start
    rw [probeRun_zero]
    exact List.nodup_nil
  | succ n ih =>
    intro start
    rw [probeRun_succ]
    by_cases hs : stop (logf (powf start)) = true
    · rw [if_pos hs]
      simp
    · rw [if_neg hs]
      refine List.nodup_cons.mpr ⟨?_, ih (start - 1)⟩
      intro hmem
      have := probeRun_trace_mem stop powf logf n (start - 1) start hmem
      omega

theorem probeRun_trace_ge (stop : PyResult → Bool) (powf : ℤ → ℚ) (logf : ℚ → PyResult)
    (fuel : ℕ) : ∀ (start b : ℤ) (t : List ℤ),
      probeRun stop powf logf fuel start = (t, some b) → ∀ p ∈ t, b ≤ p := by
  induction fuel with
  | zero =>
    intro start b t h
    rw [probeRun_zero] at h
    simp at h
  | succ n ih =>
    intro start b t h
    rw [probeRun_succ] at h
    by_cases hs : stop (logf (powf start)) = true
    · rw [if_pos hs] at h
      obtain ⟨ht, hb⟩ := Prod.mk.injEq _ _ _ _ ▸ h
      obtain rfl : start = b := Option.some.inj hb
      subst ht
      intro p hp
      simp only [List.mem_singleton] at hp
      omega
    · rw [if_neg hs] at h
      obtain ⟨ht, hb⟩ := Prod.mk.injEq _ _ _ _ ▸ h
      have hrest : probeRun stop powf logf n (start - 1) =
          ((probeRun stop powf logf n (start - 1)).1, some b) := by
        rw [← hb]
      subst ht
      intro p hp
      simp only [List.mem_cons] at hp
      rcases hp with hp | hp
      · have := (probeRun_sound stop powf logf n (start - 1) b _ hrest).2.1
        omega
      · exact ih (start - 1) b _ hrest p hp

theorem probeRun_trace_last (stop : PyResult → Bool) (powf : ℤ → ℚ) (logf : ℚ → PyResult)
    (fuel : ℕ) : ∀ (start b : ℤ) (t : List ℤ),
      probeRun stop powf logf fuel start = (t, some b) → t.getLast? = some b := by
  induction fuel with
  | zero =>
    intro start b t h
    rw [probeRun_zero] at h
    simp at h
  | succ n ih =>
    intro start b t h
    rw [probeRun_succ] at h
    by_cases hs : stop (logf (powf start)) = true
    · rw [if_pos hs] at h
      obtain ⟨ht, hb⟩ := Prod.mk.injEq _ _ _ _ ▸ h
      obtain rfl : start = b := Option.some.inj hb
      subst ht
      rfl
    · rw [if_neg hs] at h
      obtain ⟨ht, hb⟩ := Prod.mk.injEq _ _ _ _ ▸ h
      have hrest : probeRun stop powf logf n (start - 1) =
          ((probeRun stop powf logf n (start - 1)).1, some b) := by
        rw [← hb]
      subst ht
      have hlast := ih (start - 1) b _ hrest
      cases hne : (probeRun stop powf logf n (start - 1)).1 with
      | nil => rw [hne] at hlast; simp at hlast
      | cons x xs =>
        rw [hne] at hlast
        rw [List.getLast?_cons_cons]
        exact hlast

theorem roundNE_of_lt_half (q : ℚ) (h0 : 0 ≤ q) (h : q < 1 / 2) : roundNE q = 0 := by
  have hf : ⌊q⌋ = 0 := Int.floor_eq_zero_iff.mpr (Set.mem_Ico.mpr ⟨h0, by linarith⟩)
  unfold roundNE
  rw [hf]
  simp only [Int.cast_zero, sub_zero]
  rw [if_pos h]

theorem roundNE_one_le (q : ℚ) (h : 1 / 2 < q) : 1 ≤ roundNE q := by
  have h0 : (0 : ℚ) ≤ q := by linarith
  have hfl0 : 0 ≤ ⌊q⌋ := Int.floor_nonneg.mpr h0
  have hle : (⌊q⌋ : ℚ) ≤ q := Int.floor_le q
  unfold roundNE
  split_ifs with h1 h2 h3
  · have hpos : (0 : ℚ) < (⌊q⌋ : ℚ) := by linarith
    have := Int.cast_pos.mp hpos
    omega
  · omega
  · have heq : q - ⌊q⌋ = 1 / 2 := le_antisymm (not_lt.mp h2) (not_lt.mp h1)
    have hpos : (0 : ℚ) < (⌊q⌋ : ℚ) := by linarith
    have := Int.cast_pos.mp hpos
    omega
  · omega

theorem qlog2_le_self (q : ℚ) (hq : 0 < q) : (2 : ℚ) ^ qlog2 q ≤ q := by
  have hnum : 0 < q.num := Rat.num_pos.mpr hq
  have ha : 0 < q.num.toNat := by omega
  have hb : 0 < q.den := q.den_pos
  have hcast : ((q.num.toNat : ℕ) : ℚ) = (q.num : ℚ) := by
    rw [← Int.cast_natCast]
    exact congrArg _ (Int.toNat_of_nonneg hnum.le)
  have hq_eq : ((q.num.toNat : ℕ) : ℚ) / ((q.den : ℕ) : ℚ) = q := by
    rw [hcast]
    exact Rat.num_div_den q
  have hbq : (0 : ℚ) < ((q.den : ℕ) : ℚ) := by exact_mod_cast hb
  unfold qlog2
  split_ifs with h1 h2
  · rw [zpow_natCast]
    have h3 : (2 : ℕ) ^ Nat.log 2 (q.num.toNat / q.den) ≤ q.num.toNat / q.den :=
      Nat.pow_log_le_self 2 (Nat.div_pos h1 hb).ne'
    calc (2 : ℚ) ^ Nat.log 2 (q.num.toNat / q.den)
        = (((2 : ℕ) ^ Nat.log 2 (q.num.toNat / q.den) : ℕ) : ℚ) := by push_cast; ring
      _ ≤ ((q.num.toNat / q.den : ℕ) : ℚ) := by exact_mod_cast h3
      _ ≤ ((q.num.toNat : ℕ) : ℚ) / ((q.den : ℕ) : ℚ) := Nat.cast_div_le
      _ = q := hq_eq
  · set z := Nat.log 2 (q.den / q.num.toNat) with hz
    have h2pos : (0 : ℚ) < (2 : ℚ) ^ z := by positivity
    have hcmp : ((q.den : ℕ) : ℚ) ≤ ((q.num.toNat : ℕ) : ℚ) * 2 ^ z := by
      exact_mod_cast h2
    rw [zpow_neg, zpow_natCast, inv_eq_one_div, ← hq_eq,
      div_le_div_iff₀ h2pos hbq]
    linarith
  · set z := Nat.log 2 (q.den / q.num.toNat) with hz
    have hba : q.den / q.num.toNat < 2 ^ (z + 1) :=
      Nat.lt_pow_succ_log_self (by norm_num) _
    have hlt : q.den < 2 ^ (z + 1) * q.num.toNat :=
      (Nat.div_lt_iff_lt_mul ha).mp hba
    have hexp : -(z : ℤ) - 1 = -((z + 1 : ℕ) : ℤ) := by push_cast; ring
    have hcmp : ((q.den : ℕ) : ℚ) ≤ ((q.num.toNat : ℕ) : ℚ) * 2 ^ (z + 1) := by
      exact_mod_cast Nat.le_of_lt (lt_of_lt_of_le hlt (by rw [Nat.mul_comm]))
    rw [hexp, zpow_neg, zpow_natCast, inv_eq_one_div, ← hq_eq,
      div_le_div_iff₀ (by positivity) hbq]
    linarith

theorem nat_pow_fact_324 : (2 : ℕ) ^ 1075 < 10 ^ 324 := by norm_num

theorem nat_pow_fact_323 : (10 : ℕ) ^ 323 < 2 ^ 1075 := by norm_num

theorem key_half_lt_323 : (1 : ℚ) / 2 < (10 : ℚ) ^ (-323 : ℤ) / 2 ^ (-1074 : ℤ) := by
  have h1 : ((10 : ℚ) ^ (-323 : ℤ)) / 2 ^ (-1074 : ℤ) =
      (2 : ℚ) ^ (1074 : ℕ) / (10 : ℚ) ^ (323 : ℕ) := by
    rw [show (-323 : ℤ) = -((323 : ℕ) : ℤ) by norm_num,
      show (-1074 : ℤ) = -((1074 : ℕ) : ℤ) by norm_num,
      zpow_neg, zpow_neg, zpow_natCast, zpow_natCast, div_eq_mul_inv, inv_inv,
      inv_mul_eq_div]
  have h2 : ((10 : ℕ) : ℚ) ^ (323 : ℕ) < ((2 : ℕ) : ℚ) ^ (1075 : ℕ) := by
    exact_mod_cast nat_pow_fact_323
  push_cast at h2
  rw [h1, div_lt_div_iff₀ (by norm_num) (by positivity)]
  calc (1 : ℚ) * 10 ^ (323 : ℕ) = 10 ^ (323 : ℕ) := one_mul _
    _ < 2 ^ (1075 : ℕ) := h2
    _ = 2 ^ (1074 : ℕ) * 2 := pow_succ 2 1074

theorem key_lt_half_324 : (10 : ℚ) ^ (-324 : ℤ) / 2 ^ (-1074 : ℤ) < 1 / 2 := by
  have h1 : ((10 : ℚ) ^ (-324 : ℤ)) / 2 ^ (-1074 : ℤ) =
      (2 : ℚ) ^ (1074 : ℕ) / (10 : ℚ) ^ (324 : ℕ) := by
    rw [show (-324 : ℤ) = -((324 : ℕ) : ℤ) by norm_num,
      show (-1074 : ℤ) = -((1074 : ℕ) : ℤ) by norm_num,
      zpow_neg, zpow_neg, zpow_natCast, zpow_natCast, div_eq_mul_inv, inv_inv,
      inv_mul_eq_div]
  have h2 : ((2 : ℕ) : ℚ) ^ (1075 : ℕ) < ((10 : ℕ) : ℚ) ^ (324 : ℕ) := by
    exact_mod_cast nat_pow_fact_324
  push_cast at h2
  rw [h1, div_lt_div_iff₀ (by positivity) (by norm_num)]
  calc (2 : ℚ) ^ (1074 : ℕ) * 2 = 2 ^ (1075 : ℕ) := (pow_succ 2 1074).symm
    _ < 10 ^ (324 : ℕ) := h2
    _ = 1 * 10 ^ (324 : ℕ) := (one_mul _).symm

theorem pyPow_ten_pos (p : ℤ) (h1 : -323 ≤ p) (h2 : p ≤ 0) : 0 < pyPow 10 p := by
  unfold pyPow
  split_ifs with hp
  · exact zpow_pos (by norm_num) p
  · have hq : (0 : ℚ) < (10 : ℚ) ^ p := zpow_pos (by norm_num) p
    rw [roundDouble, if_neg (ne_of_gt hq), if_pos hq]
    unfold roundDoublePos
    set e : ℤ := max (qlog2 ((10 : ℚ) ^ p) - 52) (-1074) with he
    have hepos : (0 : ℚ) < 2 ^ e := zpow_pos (by norm_num) e
    have hhalf : 1 / 2 < (10 : ℚ) ^ p / 2 ^ e := by
      rcases max_cases (qlog2 ((10 : ℚ) ^ p) - 52) (-1074 : ℤ) with ⟨hmax, hge⟩ | ⟨hmax, hlt⟩
      · have hlow : (2 : ℚ) ^ qlog2 ((10 : ℚ) ^ p) ≤ (10 : ℚ) ^ p :=
          qlog2_le_self _ hq
        have hee : (2 : ℚ) ^ e ≤ (10 : ℚ) ^ p := by
          refine le_trans ?_ hlow
          refine zpow_le_zpow_right₀ (by norm_num) ?_
          omega
        have hone : (1 : ℚ) ≤ (10 : ℚ) ^ p / 2 ^ e := (one_le_div hepos).mpr hee
        linarith
      · rw [he, hmax]
        have hmono : (10 : ℚ) ^ (-323 : ℤ) ≤ (10 : ℚ) ^ p :=
          zpow_le_zpow_right₀ (by norm_num) h1
        calc (1 : ℚ) / 2 < (10 : ℚ) ^ (-323 : ℤ) / 2 ^ (-1074 : ℤ) := key_half_lt_323
          _ ≤ (10 : ℚ) ^ p / 2 ^ (-1074 : ℤ) :=
            (div_le_div_iff_of_pos_right (zpow_pos (by norm_num) _)).mpr hmono
    have hm : 1 ≤ roundNE ((10 : ℚ) ^ p / 2 ^ e) := roundNE_one_le _ hhalf
    have hmq : (1 : ℚ) ≤ (roundNE ((10 : ℚ) ^ p / 2 ^ e) : ℚ) := by exact_mod_cast hm
    calc (0 : ℚ) < 1 * 2 ^ e := by linarith
      _ ≤ (roundNE ((10 : ℚ) ^ p / 2 ^ e) : ℚ) * 2 ^ e := by
        exact mul_le_mul_of_nonneg_right hmq hepos.le

theorem pyPow_ten_neg324 : pyPow 10 (-324) = 0 := by
  unfold pyPow
  rw [if_neg (by norm_num)]
  have hq : (0 : ℚ) < (10 : ℚ) ^ (-324 : ℤ) := zpow_pos (by norm_num) _
  rw [roundDouble, if_neg (ne_of_gt hq), if_pos hq]
  unfold roundDoublePos
  set e : ℤ := max (qlog2 ((10 : ℚ) ^ (-324 : ℤ)) - 52) (-1074) with he
  have hepos : (0 : ℚ) < 2 ^ e := zpow_pos (by norm_num) e
  have h2e : (2 : ℚ) ^ (-1074 : ℤ) ≤ 2 ^ e :=
    zpow_le_zpow_right₀ (by norm_num) (le_max_right _ _)
  have harg : (10 : ℚ) ^ (-324 : ℤ) / 2 ^ e ≤ (10 : ℚ) ^ (-324 : ℤ) / 2 ^ (-1074 : ℤ) :=
    (div_le_div_iff_of_pos_left hq hepos (zpow_pos (by norm_num) _)).mpr h2e
  have h0 : roundNE ((10 : ℚ) ^ (-324 : ℤ) / 2 ^ e) = 0 :=
    roundNE_of_lt_half _ (by positivity) (lt_of_le_of_lt harg key_lt_half_324)
  rw [h0]
  simp

theorem decEtiny_eq : decEtiny = -1000026 := by
  unfold decEtiny decEmin decPrec
  norm_num

theorem decimalPow_pos (p : ℤ) (h : decEtiny ≤ p) : 0 < decimalPow p := by
  unfold decimalPow
  rw [if_pos h]
  exact zpow_pos (by norm_num) p

theorem decimalPow_eq_zero (p : ℤ) (h : p < decEtiny) : decimalPow p = 0 := by
  unfold decimalPow
  rw [if_neg (by omega)]
  have hdiv : (10 : ℚ) ^ p / (10 : ℚ) ^ decEtiny = 10 ^ (p - decEtiny) :=
    (zpow_sub₀ (by norm_num) _ _).symm
  have hle : (10 : ℚ) ^ (p - decEtiny) ≤ 10 ^ (-1 : ℤ) :=
    zpow_le_zpow_right₀ (by norm_num) (by omega)
  have hlt : (10 : ℚ) ^ (-1 : ℤ) < 1 / 2 := by
    rw [zpow_neg, zpow_one]
    norm_num
  have h0 : roundNE ((10 : ℚ) ^ p / (10 : ℚ) ^ decEtiny) = 0 := by
    rw [hdiv]
    exact roundNE_of_lt_half _ (zpow_pos (by norm_num) _).le (lt_of_le_of_lt hle hlt)
  rw [h0]
  simp

theorem mathProbe_boundary (fuel : ℕ) (h : 325 ≤ fuel) :
    (mathProbe fuel).2 = some (-324) := by
  unfold mathProbe
  refine probeRun_complete mathStops (pyPow 10) math.log (-324) ?_ fuel 0 (by omega) ?_
    (by omega)
  · exact (mathFails_iff _).mpr (le_of_eq pyPow_ten_neg324)
  · intro p hp1 hp2
    have hpos := pyPow_ten_pos p (by omega) hp2
    rw [← Bool.not_eq_true, mathFails_iff]
    exact not_le.mpr hpos

theorem npProbe_boundary (fuel : ℕ) (h : 325 ≤ fuel) :
    (npProbe warningsAsErrors fuel).2 = some (-324) := by
  unfold npProbe
  refine probeRun_complete mathStops (pyPow 10) (np.log warningsAsErrors) (-324) ?_ fuel 0
    (by omega) ?_ (by omega)
  · exact (npFails_iff _ _).mpr ⟨le_of_eq pyPow_ten_neg324, rfl⟩
  · intro p hp1 hp2
    have hpos := pyPow_ten_pos p (by omega) hp2
    rw [← Bool.not_eq_true, npFails_iff]
    intro hand
    exact absurd hand.1 (not_le.mpr hpos)

theorem decProbe_boundary (fuel : ℕ) (h : 1000028 ≤ fuel) :
    (decProbe fuel).2 = some (-1000027) := by
  unfold decProbe
  refine probeRun_complete decStops decimalPow Decimal.ln (-1000027) ?_ fuel 0 (by omega) ?_
    (by omega)
  · refine (decFails_iff _).mpr (decimalPow_eq_zero _ ?_)
    rw [decEtiny_eq]
    omega
  · intro p hp1 hp2
    have hpos : 0 < decimalPow p := by
      refine decimalPow_pos p ?_
      rw [decEtiny_eq]
      omega
    rw [← Bool.not_eq_true, decFails_iff]
    exact hpos.ne'

/-- C1: for the fixed-width floating-point backend, in both the
non-vectorized (`math`) and vectorized (`numpy`) variants, the probe run
with base 10 and starting exponent 0 reports the boundary exponent `-324`:
the log call succeeds on `10 ^ e` for every exponent `-324 < e ≤ 0` and
first fails at `e = -324`. -/
theorem C1_float_boundary (fuel : ℕ) (hfuel : 325 ≤ fuel) :
    (mathProbe fuel).2 = some (-324) ∧
    (npProbe warningsAsErrors fuel).2 = some (-324) ∧
    (∀ e : ℤ, -324 < e → e ≤ 0 →
      mathStops (math.log (pyPow 10 e)) = false ∧
      mathStops (np.log warningsAsErrors (pyPow 10 e)) = false) ∧
    mathStops (math.log (pyPow 10 (-324))) = true ∧
    mathStops (np.log warningsAsErrors (pyPow 10 (-324))) = true := by
  refine ⟨mathProbe_boundary fuel hfuel, npProbe_boundary fuel hfuel, ?_, ?_, ?_⟩
  · intro e he1 he2
    have hpos := pyPow_ten_pos e (by omega) he2
    constructor
    · rw [← Bool.not_eq_true, mathFails_iff]
      exact not_le.mpr hpos
    · rw [← Bool.not_eq_true, npFails_iff]
      intro hand
      exact absurd hand.1 (not_le.mpr hpos)
  · exact (mathFails_iff _).mpr (le_of_eq pyPow_ten_neg324)
  · exact (npFails_iff _ _).mpr ⟨le_of_eq pyPow_ten_neg324, rfl⟩

theorem C1_float_boundary_witness :
    (mathProbe 325).2 = some (-324) ∧ mathStops (math.log (pyPow 10 (-1))) = false := by
  obtain ⟨h1, _, h3, _, _⟩ := C1_float_boundary 325 (by decide)
  exact ⟨h1, (h3 (-1) (by decide) (by decide)).1⟩

/-- C2: for the arbitrary-precision decimal backend under the decimal
module's default context, the probe run with base 10 and starting exponent
0 reports the boundary exponent `-1000027`: `Decimal(10) ^ e` has a finite
`ln` for every exponent `-1000027 < e ≤ 0`, and `ln` first equals the
negative-infinity sentinel at `e = -1000027`. -/
theorem C2_decimal_boundary (fuel : ℕ) (hfuel : 1000028 ≤ fuel) :
    (decProbe fuel).2 = some (-1000027) ∧
    (∀ e : ℤ, -1000027 < e → e ≤ 0 →
      Decimal.ln (decimalPow e) = PyResult.value false) ∧
    Decimal.ln (decimalPow (-1000027)) = PyResult.value true := by
  refine ⟨decProbe_boundary fuel hfuel, ?_, ?_⟩
  · intro e he1 he2
    have hpos : 0 < decimalPow e := by
      refine decimalPow_pos e ?_
      rw [decEtiny_eq]
      omega
    unfold Decimal.ln
    rw [if_neg hpos.ne']
  · have hz : decimalPow (-1000027) = 0 := by
      refine decimalPow_eq_zero _ ?_
      rw [decEtiny_eq]
      omega
    unfold Decimal.ln
    rw [if_pos hz]

theorem C2_decimal_boundary_witness :
    (decProbe 1000028).2 = some (-1000027) ∧
      Decimal.ln (decimalPow (-1)) = PyResult.value false := by
  obtain ⟨h1, h2, _⟩ := C2_decimal_boundary 1000028 (by decide)
  exact ⟨h1, h2 (-1) (by decide) (by decide)⟩

/-- C3: for every backend log function and every base at least 2, the probe
starts at a given exponent, computes the backend power there and calls the
log function on it; if the call signals failure or yields the
negative-infinity sentinel the probe stops and reports exactly that
exponent, otherwise it decrements the exponent by exactly 1 and repeats;
and in a run that reports a boundary, the failing exponent is the last one
evaluated — no log evaluation happens after the first failure. -/
theorem C3_probe_step_structure (base : ℚ) (hbase : 2 ≤ base) (powf : ℚ → ℤ → ℚ)
    (logf : ℚ → PyResult) (fuel : ℕ) (e : ℤ) :
    (specStops (logf (powf base e)) = true →
      probeRun specStops (powf base) logf (fuel + 1) e = ([e], some e)) ∧
    (specStops (logf (powf base e)) = false →
      probeRun specStops (powf base) logf (fuel + 1) e =
        (e :: (probeRun specStops (powf base) logf fuel (e - 1)).1,
          (probeRun specStops (powf base) logf fuel (e - 1)).2)) ∧
    (∀ (t : List ℤ) (b : ℤ),
      probeRun specStops (powf base) logf (fuel + 1) e = (t, some b) →
      t.getLast? = some b ∧ ∀ p ∈ t, b ≤ p) := by
  refine ⟨?_, ?_, ?_⟩
  · intro h
    rw [probeRun_succ, if_pos h]
  · intro h
    rw [probeRun_succ, if_neg (by simp [h])]
  · intro t b h
    exact ⟨probeRun_trace_last specStops (powf base) logf (fuel + 1) e b t h,
      probeRun_trace_ge specStops (powf base) logf (fuel + 1) e b t h⟩

theorem C3_probe_step_structure_witness :
    probeRun specStops ((fun _ _ => (0 : ℚ)) 2) (fun _ => PyResult.value true) 1 0 =
      ([0], some 0) :=
  (C3_probe_step_structure 2 (le_refl 2) (fun _ _ => 0)
    (fun _ => PyResult.value true) 0 0).1 rfl

/-- C4: the decimal adapter never raises over the probe's domain —
`Decimal.ln` always returns a value, and the boundary is detected solely by
the equality comparison of the result with the `Decimal("-Infinity")`
sentinel, which is returned exactly when exponentiation has underflowed to
exact zero; with that equality check removed the decimal probe loop never
terminates. -/
theorem C4_decimal_sentinel_detection :
    (∀ (x : ℚ) (err : PyErr), Decimal.ln x ≠ PyResult.raised err) ∧
    (∀ x : ℚ, decStops (Decimal.ln x) = true ↔ x = 0) ∧
    (∀ p : ℤ, decimalPow p = 0 ↔ p ≤ -1000027) ∧
    (∀ (fuel : ℕ) (power : ℤ),
      (probeRun decStopsRemoved decimalPow Decimal.ln fuel power).2 = none) := by
  refine ⟨?_, decFails_iff, ?_, ?_⟩
  · intro x err
    unfold Decimal.ln
    split_ifs <;> exact fun h => PyResult.noConfusion h
  · intro p
    constructor
    · intro h0
      by_contra hgt
      push_neg at hgt
      have hpos : 0 < decimalPow p := by
        refine decimalPow_pos p ?_
        rw [decEtiny_eq]
        omega
      rw [h0] at hpos
      exact lt_irrefl 0 hpos
    · intro hle
      refine decimalPow_eq_zero p ?_
      rw [decEtiny_eq]
      omega
  · intro fuel power
    exact probeRun_none_of_no_stop decStopsRemoved decimalPow Decimal.ln
      (fun _ => rfl) fuel power

theorem C4_decimal_sentinel_detection_witness :
    decStops (Decimal.ln 0) = true ∧
      (probeRun decStopsRemoved decimalPow Decimal.ln 5 0).2 = none :=
  ⟨(C4_decimal_sentinel_detection.2.1 0).mpr rfl,
    C4_decimal_sentinel_detection.2.2.2 5 0⟩

/-- C5: the program always escalates runtime numeric warnings into fatal
errors (`warnings.filterwarnings("error")` is unconditional), so the
vectorized backend's division-by-zero warning is reclassified into a
stopping condition: every non-positive input makes the escalated `np.log`
raise, any raised error stops the float loop, and the numpy probe
terminates at the boundary; without escalation it would never stop. -/
theorem C5_warning_escalation :
    warningsAsErrors = true ∧
    (∀ x : ℚ, x ≤ 0 → np.log warningsAsErrors x = PyResult.raised PyErr.runtimeWarning) ∧
    (∀ err : PyErr, mathStops (PyResult.raised err) = true) ∧
    (∀ fuel : ℕ, 325 ≤ fuel → (npProbe warningsAsErrors fuel).2 = some (-324)) ∧
    (∀ fuel : ℕ, (npProbe false fuel).2 = none) := by
  refine ⟨rfl, ?_, fun _ => rfl, npProbe_boundary, ?_⟩
  · intro x hx
    unfold np.log warningsAsErrors
    rw [if_pos hx, if_pos rfl]
  · intro fuel
    unfold npProbe
    refine probeRun_none_of_no_stop mathStops (pyPow 10) (np.log false) ?_ fuel 0
    intro p
    unfold np.log
    split_ifs with h1 h2 <;> simp_all [mathStops]

theorem C5_warning_escalation_witness :
    np.log warningsAsErrors 0 = PyResult.raised PyErr.runtimeWarning ∧
      (npProbe warningsAsErrors 325).2 = some (-324) :=
  ⟨C5_warning_escalation.2.1 0 le_rfl, C5_warning_escalation.2.2.2.1 325 (by decide)⟩

/-- C6: boundary-adjacency for every backend: if the probe reports boundary
`b`, then the backend's log at `base ^ (b + 1)` succeeds with a finite value
(for the decimal backend, a value different from the negative-infinity
sentinel), while at `base ^ b` it fails or returns the sentinel. -/
theorem C6_boundary_adjacency :
    (∀ (fuel : ℕ) (b : ℤ), (mathProbe fuel).2 = some b →
      b = -324 ∧ math.log (pyPow 10 (b + 1)) = PyResult.value false ∧
        mathStops (math.log (pyPow 10 b)) = true) ∧
    (∀ (fuel : ℕ) (b : ℤ), (npProbe warningsAsErrors fuel).2 = some b →
      b = -324 ∧ np.log warningsAsErrors (pyPow 10 (b + 1)) = PyResult.value false ∧
        mathStops (np.log warningsAsErrors (pyPow 10 b)) = true) ∧
    (∀ (fuel : ℕ) (b : ℤ), (decProbe fuel).2 = some b →
      b = -1000027 ∧ Decimal.ln (decimalPow (b + 1)) = PyResult.value false ∧
        decStops (Decimal.ln (decimalPow b)) = true) := by
  have hm323 : (0 : ℚ) < pyPow 10 (-323) := pyPow_ten_pos (-323) (by norm_num) (by norm_num)
  refine ⟨?_, ?_, ?_⟩
  · intro fuel b h
    unfold mathProbe at h
    have hb : b = -324 :=
      probeRun_det mathStops (pyPow 10) math.log 0 fuel 325 b (-324) h
        (mathProbe_boundary 325 (by norm_num))
    subst hb
    refine ⟨rfl, ?_, (mathFails_iff _).mpr (le_of_eq pyPow_ten_neg324)⟩
    unfold math.log
    rw [if_neg (not_le.mpr (by norm_num at hm323 ⊢; exact hm323))]
  · intro fuel b h
    unfold npProbe at h
    have hb : b = -324 :=
      probeRun_det mathStops (pyPow 10) (np.log warningsAsErrors) 0 fuel 325 b (-324) h
        (npProbe_boundary 325 (by norm_num))
    subst hb
    refine ⟨rfl, ?_, (npFails_iff _ _).mpr ⟨le_of_eq pyPow_ten_neg324, rfl⟩⟩
    unfold np.log
    rw [if_neg (not_le.mpr (by norm_num at hm323 ⊢; exact hm323))]
  · intro fuel b h
    unfold decProbe at h
    have hb : b = -1000027 :=
      probeRun_det decStops decimalPow Decimal.ln 0 fuel 1000028 b (-1000027) h
        (decProbe_boundary 1000028 (by norm_num))
    subst hb
    have hpos : 0 < decimalPow (-1000027 + 1) := by
      refine decimalPow_pos _ ?_
      rw [decEtiny_eq]
      omega
    have hz : decimalPow (-1000027) = 0 := by
      refine decimalPow_eq_zero _ ?_
      rw [decEtiny_eq]
      omega
    refine ⟨rfl, ?_, (decFails_iff _).mpr hz⟩
    unfold Decimal.ln
    rw [if_neg hpos.ne']

theorem C6_boundary_adjacency_witness :
    (-324 : ℤ) = -324 ∧ math.log (pyPow 10 (-324 + 1)) = PyResult.value false ∧
      mathStops (math.log (pyPow 10 (-324))) = true :=
  C6_boundary_adjacency.1 325 (-324) (mathProbe_boundary 325 (by decide))

/-- C7: for every probe run started at exponent 0, the sequence of
exponents at which the log function is evaluated starts at 0, is strictly
decreasing by exactly 1 per step, and contains no exponent twice. -/
theorem C7_exponent_sequence (stop : PyResult → Bool) (powf : ℤ → ℚ)
    (logf : ℚ → PyResult) (fuel : ℕ) (t : List ℤ) (r : Option ℤ)
    (h : probeRun stop powf logf fuel 0 = (t, r)) :
    List.Chain' (fun a b => b = a - 1) t ∧ t.Nodup ∧ ∀ x ∈ t.head?, x = 0 := by
  have ht : t = (probeRun stop powf logf fuel 0).1 := by rw [h]
  subst ht
  refine ⟨probeRun_trace_chain stop powf logf fuel 0,
    probeRun_trace_nodup stop powf logf fuel 0, ?_⟩
  cases fuel with
  | zero =>
    rw [probeRun_zero]
    intro x hx
    simp at hx
  | succ n =>
    rw [probeRun_trace_head]
    intro x hx
    simp only [Option.mem_def, Option.some.injEq] at hx
    omega

theorem C7_exponent_sequence_witness :
    List.Chain' (fun a b => b = a - 1) [(0 : ℤ)] ∧ ([(0 : ℤ)]).Nodup ∧
      ∀ x ∈ ([(0 : ℤ)]).head?, x = 0 :=
  C7_exponent_sequence (fun _ => true) (fun _ => 0) (fun _ => PyResult.value false)
    1 [0] (some 0) rfl

/-- C8: every probe run terminates after finitely many iterations for each
of the three backends: with enough fuel the fuelled loop reports a boundary
(so the source `while` loop exits), because the descending sequence from 0
reaches an exponent whose power fails the backend — the floats underflow to
zero at `10 ^ (-324)` and the default-context decimal at
`10 ^ (-1000027)`. -/
theorem C8_termination :
    (∀ fuel : ℕ, 325 ≤ fuel →
      (mathProbe fuel).2 = some (-324) ∧
        (npProbe warningsAsErrors fuel).2 = some (-324)) ∧
    (∀ fuel : ℕ, 1000028 ≤ fuel → (decProbe fuel).2 = some (-1000027)) ∧
    mathStops (math.log (pyPow 10 (-324))) = true ∧
    mathStops (np.log warningsAsErrors (pyPow 10 (-324))) = true ∧
    decStops (Decimal.ln (decimalPow (-1000027))) = true := by
  refine ⟨fun fuel h => ⟨mathProbe_boundary fuel h, npProbe_boundary fuel h⟩,
    decProbe_boundary, (mathFails_iff _).mpr (le_of_eq pyPow_ten_neg324),
    (npFails_iff _ _).mpr ⟨le_of_eq pyPow_ten_neg324, rfl⟩, ?_⟩
  refine (decFails_iff _).mpr (decimalPow_eq_zero _ ?_)
  rw [decEtiny_eq]
  omega

theorem C8_termination_witness :
    (mathProbe 325).2 = some (-324) ∧ (decProbe 1000028).2 = some (-1000027) :=
  ⟨(C8_termination.1 325 (by decide)).1, C8_termination.2.1 1000028 (by decide)⟩

/-- C9: the probe is deterministic: two runs with the same stopping test,
power model, log function and starting exponent that both report a boundary
report the same boundary exponent, whatever fuel each run was given. -/
theorem C9_probe_deterministic (stop : PyResult → Bool) (powf : ℤ → ℚ)
    (logf : ℚ → PyResult) (start : ℤ) (fuel₁ fuel₂ : ℕ) (b₁ b₂ : ℤ)
    (h₁ : (probeRun stop powf logf fuel₁ start).2 = some b₁)
    (h₂ : (probeRun stop powf logf fuel₂ start).2 = some b₂) : b₁ = b₂ :=
  probeRun_det stop powf logf start fuel₁ fuel₂ b₁ b₂ h₁ h₂

theorem C9_probe_deterministic_witness : (0 : ℤ) = 0 :=
  C9_probe_deterministic (fun _ => true) (fun _ => 0)
    (fun _ => PyResult.value false) 0 1 2 0 0 rfl rfl

/-- C10: in the two floating-point probes the exception handler is a bare
`except`: every exception value, of any type, stops the loop, which then
reports the current exponent as the boundary; no exception escapes the
loop body. -/
theorem C10_bare_except :
    (∀ err : PyErr, mathStops (PyResult.raised err) = true) ∧
    (∀ (powf : ℤ → ℚ) (logf : ℚ → PyResult) (fuel : ℕ) (e : ℤ) (err : PyErr),
      logf (powf e) = PyResult.raised err →
      probeRun mathStops powf logf (fuel + 1) e = ([e], some e)) := by
  refine ⟨fun _ => rfl, ?_⟩
  intro powf logf fuel e err h
  rw [probeRun_succ, h]
  rfl

theorem C10_bare_except_witness :
    probeRun mathStops (fun _ => 0) (fun _ => PyResult.raised PyErr.valueError) 1 0 =
      ([0], some 0) :=
  C10_bare_except.2 (fun _ => 0) (fun _ => PyResult.raised PyErr.valueError) 0 0
    PyErr.valueError rfl
